import Mathlib

/-!
Shallow embedding of the toytracer-rs rendering core, translated from
`src/vec3.rs`, `src/ray.rs`, `src/hit.rs`, `src/material.rs` and
`src/main.rs`.  The machine type `f64` is modelled by `ℝ`.  The upper
ray-parameter bound is modelled by `WithTop ℝ`, so that the value
`f64::INFINITY` passed by `ray_color` has a faithful counterpart (`⊤`);
the lower bound is always a finite `f64` in the source and stays `ℝ`.
Randomness is made explicit: `ray_color` receives the stream of values
produced by `Vec3::random_unit_vector` (one draw per bounce), and
`Material::scatter` receives a record holding the draws its arms may
consume (`random_unit_vector`, `random_in_unit_sphere`, `gen_range`).
-/

noncomputable section

namespace Toytracer

/-- Model of `Vec3` from `src/vec3.rs`: an ordered triple of `f64`, over `ℝ`. -/
structure Vec3 where
  x : ℝ
  y : ℝ
  z : ℝ

/-- Semantic alias, as in `src/vec3.rs`. -/
abbrev Point3 := Vec3

/-- Semantic alias, as in `src/vec3.rs`. -/
abbrev Color := Vec3

instance : Add Vec3 := ⟨fun v w => ⟨v.x + w.x, v.y + w.y, v.z + w.z⟩⟩

instance : Sub Vec3 := ⟨fun v w => ⟨v.x - w.x, v.y - w.y, v.z - w.z⟩⟩

instance : Neg Vec3 := ⟨fun v => ⟨-v.x, -v.y, -v.z⟩⟩

instance : Mul Vec3 := ⟨fun v w => ⟨v.x * w.x, v.y * w.y, v.z * w.z⟩⟩

instance : SMul ℝ Vec3 := ⟨fun a v => ⟨a * v.x, a * v.y, a * v.z⟩⟩

/-- Model of `Vec3::length_squared`. -/
def Vec3.length_squared (v : Vec3) : ℝ := v.x * v.x + v.y * v.y + v.z * v.z

/-- Model of `Vec3::length`. -/
def Vec3.length (v : Vec3) : ℝ := Real.sqrt v.length_squared

/-- Model of `Vec3::dot`. -/
def Vec3.dot (v w : Vec3) : ℝ := v.x * w.x + v.y * w.y + v.z * w.z

/-- Model of `Vec3::unit`: `self / self.length()`, where division by a
scalar is implemented in the source as `self * (1.0 / rhs)`. -/
def Vec3.unit (v : Vec3) : Vec3 := (1 / v.length) • v

/-- Model of `Vec3::near_zero`: every component has absolute value below `1e-8`. -/
def Vec3.near_zero (v : Vec3) : Prop :=
  |v.x| < 1e-8 ∧ |v.y| < 1e-8 ∧ |v.z| < 1e-8

instance (v : Vec3) : Decidable v.near_zero := by
  unfold Vec3.near_zero; infer_instance

/-- Model of `Vec3::reflect`: `self - 2 * self.dot(normal) * normal`. -/
def Vec3.reflect (v normal : Vec3) : Vec3 := v - (2 * v.dot normal) • normal

/-- Model of `Vec3::refract`. -/
def Vec3.refract (v normal : Vec3) (etai_over_etat : ℝ) : Vec3 :=
  let cos_theta := min ((-v).dot normal) 1
  let r_out_perp := etai_over_etat • (v + cos_theta • normal)
  let r_out_parallel := (-(Real.sqrt (1 - r_out_perp.length_squared))) • normal
  r_out_perp + r_out_parallel

/-- Model of `Ray` from `src/ray.rs`. -/
structure Ray where
  origin : Point3
  direction : Vec3

/-- Model of `Ray::at`: `origin + direction * t` (named `at'` since `at` is
a Lean keyword). -/
def Ray.at' (r : Ray) (t : ℝ) : Point3 := r.origin + t • r.direction

/-- Model of the `Material` enum from `src/material.rs`. -/
inductive Material where
  | Lambertian (albedo : Color)
  | Metal (albedo : Color) (fuzz : ℝ)
  | Dielectric (index_of_refraction : ℝ)

/-- Model of `Material::new_lambertian`. -/
def Material.new_lambertian (albedo : Color) : Material :=
  Material.Lambertian albedo

/-- Model of `Material::new_metal`: the `fuzz` argument is stored as given. -/
def Material.new_metal (albedo : Color) (fuzz : ℝ) : Material :=
  Material.Metal albedo fuzz

/-- Model of `Material::new_dielectric`. -/
def Material.new_dielectric (index_of_refraction : ℝ) : Material :=
  Material.Dielectric index_of_refraction

/-- Model of the `Scatter` result struct from `src/material.rs`. -/
structure Scatter where
  attenuation : Color
  scattered : Ray

/-- Model of `HitRecord` from `src/hit.rs`. -/
structure HitRecord where
  point : Point3
  normal : Vec3
  t : ℝ
  front_face : Bool
  mat : Material

/-- Model of `HitRecord::face_normal`. -/
def HitRecord.face_normal (ray : Ray) (outward_normal : Vec3) : Bool × Vec3 :=
  if ray.direction.dot outward_normal < 0 then (true, outward_normal)
  else (false, -outward_normal)

/-- Model of `Sphere` from `src/hit.rs`. -/
structure Sphere where
  center : Point3
  radius : ℝ
  mat : Material

/-- The local `half_b` of `Sphere::hit`: `oc.dot(ray.direction())`. -/
def sphereHalfB (s : Sphere) (ray : Ray) : ℝ :=
  (ray.origin - s.center).dot ray.direction

/-- The local `c` of `Sphere::hit`: `oc.length_squared() - radius * radius`. -/
def sphereC (s : Sphere) (ray : Ray) : ℝ :=
  (ray.origin - s.center).length_squared - s.radius * s.radius

/-- The local `discriminant` of `Sphere::hit`: `half_b * half_b - a * c`. -/
def sphereDisc (s : Sphere) (ray : Ray) : ℝ :=
  sphereHalfB s ray * sphereHalfB s ray -
    ray.direction.length_squared * sphereC s ray

/-- The first candidate root of `Sphere::hit`: `(-half_b - sqrt_d) / a`. -/
def sphereRoot0 (s : Sphere) (ray : Ray) : ℝ :=
  (-sphereHalfB s ray - Real.sqrt (sphereDisc s ray)) / ray.direction.length_squared

/-- The second candidate root of `Sphere::hit`: `(-half_b + sqrt_d) / a`. -/
def sphereRoot1 (s : Sphere) (ray : Ray) : ℝ :=
  (-sphereHalfB s ray + Real.sqrt (sphereDisc s ray)) / ray.direction.length_squared

/-- The `HitRecord` built by `Sphere::hit` for an accepted root `t`:
hit point `ray.at(t)`, outward normal `(point - center) / radius`
(scalar division is `* (1/radius)` in the source), oriented by
`HitRecord::face_normal`. -/
def sphereRecord (s : Sphere) (ray : Ray) (t : ℝ) : HitRecord :=
  let point := ray.at' t
  let fn := HitRecord.face_normal ray (((1 : ℝ) / s.radius) • (point - s.center))
  { point := point, normal := fn.2, t := t, front_face := fn.1, mat := s.mat }

/-- Model of `Sphere::hit` from `src/hit.rs`.  A negative discriminant is a
miss; otherwise the smaller quadratic root is tried first and the larger
one second, each against the inclusive bounds (`root < t_min || t_max < root`
rejects). -/
def Sphere.hit (s : Sphere) (ray : Ray) (t_min : ℝ) (t_max : WithTop ℝ) :
    Option HitRecord :=
  if sphereDisc s ray < 0 then none
  else if sphereRoot0 s ray < t_min ∨ t_max < (sphereRoot0 s ray : WithTop ℝ) then
    if sphereRoot1 s ray < t_min ∨ t_max < (sphereRoot1 s ray : WithTop ℝ) then none
    else some (sphereRecord s ray (sphereRoot1 s ray))
  else some (sphereRecord s ray (sphereRoot0 s ray))

/-- The loop of `impl Hittable for &[H]` in `src/hit.rs`: `best` is
`latest_hit`, `closest` is `closest_so_far`. -/
def hitListAux (ray : Ray) (t_min : ℝ) :
    List Sphere → Option HitRecord → WithTop ℝ → Option HitRecord
  | [], best, _ => best
  | s :: rest, best, closest =>
    match s.hit ray t_min closest with
    | some hr => hitListAux ray t_min rest (some hr) (hr.t : WithTop ℝ)
    | none => hitListAux ray t_min rest best closest

/-- Model of `<&[H] as Hittable>::hit`: scan all spheres, keeping the
latest hit and shrinking the upper bound to its `t`. -/
def hitList (world : List Sphere) (ray : Ray) (t_min : ℝ) (t_max : WithTop ℝ) :
    Option HitRecord :=
  hitListAux ray t_min world none t_max

/-- Model of `Material::reflectance` (Schlick's approximation); the receiver
is unused in the source as well. -/
def Material.reflectance (_m : Material) (cosine ref_idx : ℝ) : ℝ :=
  let r0 := (1 - ref_idx) / (1 + ref_idx)
  let r0 := r0 * r0
  r0 + (1 - r0) * (1 - cosine) ^ 5

/-- The random draws `Material::scatter` may consume: the value of
`Vec3::random_unit_vector()` (Lambertian arm), of
`Vec3::random_in_unit_sphere()` (Metal arm), and of
`thread_rng().gen_range(0.0..1.0)` (Dielectric arm). -/
structure RandSrc where
  unitVec : Vec3
  sphereVec : Vec3
  uniform : ℝ

/-- Model of `Material::scatter` from `src/material.rs`, with the random
draws passed explicitly. -/
def Material.scatter (m : Material) (ray : Ray) (hr : HitRecord) (rs : RandSrc) :
    Option Scatter :=
  match m with
  | Material.Lambertian albedo =>
    let scatter_direction := hr.normal + rs.unitVec
    let scatter_direction :=
      if scatter_direction.near_zero then hr.normal else scatter_direction
    some { attenuation := albedo, scattered := { origin := hr.point, direction := scatter_direction } }
  | Material.Metal albedo fuzz =>
    let reflection := (ray.direction.unit).reflect hr.normal
    let scattered : Ray := { origin := hr.point, direction := reflection + fuzz • rs.sphereVec }
    if scattered.direction.dot hr.normal ≤ 0 then none
    else some { attenuation := albedo, scattered := scattered }
  | Material.Dielectric index_of_refraction =>
    let refr := if hr.front_face then 1 / index_of_refraction else index_of_refraction
    let unit_direction := ray.direction.unit
    let cos_theta := min ((-unit_direction).dot hr.normal) 1
    let sin_theta := Real.sqrt (1 - cos_theta * cos_theta)
    let direction :=
      if refr * sin_theta > 1 ∨ m.reflectance cos_theta refr > rs.uniform
      then unit_direction.reflect hr.normal
      else unit_direction.refract hr.normal refr
    some { attenuation := ⟨1, 1, 1⟩, scattered := { origin := hr.point, direction := direction } }

/-- Model of `ray_color` from `src/main.rs`.  Note that this function does
not consult the hit record's material: on a hit it always bounces
diffusely (`target = point + normal + random_unit_vector`) and attenuates
by `0.5`.  `rng` is the stream of `Vec3::random_unit_vector()` draws, one
per bounce. -/
def rayColor : Ray → List Sphere → ℕ → (ℕ → Vec3) → Color
  | _, _, 0, _ => ⟨0, 0, 0⟩
  | ray, world, d + 1, rng =>
    match hitList world ray 0.001 ⊤ with
    | some hr =>
      let point := hr.point
      let target := point + hr.normal + rng 0
      (0.5 : ℝ) • rayColor { origin := point, direction := target - point } world d (fun n => rng (n + 1))
    | none =>
      let unit_direction := ray.direction.unit
      let t := 0.5 * (unit_direction.y + 1)
      (1 - t) • (⟨1, 1, 1⟩ : Color) + t • (⟨0.5, 0.7, 1.0⟩ : Color)

/-- Concrete sphere used as witness input: center `(0,0,-2)`, radius `1`. -/
def s3 : Sphere := ⟨⟨0, 0, -2⟩, 1, Material.Lambertian ⟨0.5, 0.5, 0.5⟩⟩

/-- Concrete ray used as witness input: origin `(0,0,0)`, direction `(0,0,-1)`. -/
def r3 : Ray := ⟨⟨0, 0, 0⟩, ⟨0, 0, -1⟩⟩

/-- The hit record `s3.hit r3 0 10` produces: `t = 1`, point `(0,0,-1)`,
outward front-facing normal `(0,0,1)`. -/
def h3rec : HitRecord := ⟨⟨0, 0, -1⟩, ⟨0, 0, 1⟩, 1, true, Material.Lambertian ⟨0.5, 0.5, 0.5⟩⟩

/-- A fixed stream of random unit vectors, used for witness inputs. -/
def rngW : ℕ → Vec3 := fun _ => ⟨1, 0, 0⟩

/-- A second concrete sphere, further along `-z`: center `(0,0,-5)`. -/
def s5 : Sphere := ⟨⟨0, 0, -5⟩, 1, Material.Lambertian ⟨0.5, 0.5, 0.5⟩⟩

/-- A metal material whose (unclamped) fuzz `5` lets a realizable
in-unit-sphere draw push the scattered direction into the surface. -/
def cexMat : Material := Material.Metal ⟨1, 1, 1⟩ 5

/-- The counterexample scene: one metal sphere at `(0,0,-2)`, radius 1. -/
def cexSphere : Sphere := ⟨⟨0, 0, -2⟩, 1, cexMat⟩

/-- The counterexample ray: origin `(0,0,0)`, direction `(0,0,-1)`. -/
def cexRay : Ray := ⟨⟨0, 0, 0⟩, ⟨0, 0, -1⟩⟩

/-- The hit record of `cexRay` against `cexSphere` in `[0.001, ∞)`. -/
def cexHr : HitRecord := ⟨⟨0, 0, -1⟩, ⟨0, 0, 1⟩, 1, true, cexMat⟩

/-- Random draws for the scatter call: the in-unit-sphere draw `(0,0,-0.3)`
(length `0.3 < 1`, so realizable) makes the fuzzed metal reflection point
into the surface. -/
def cexRS : RandSrc := ⟨⟨1, 0, 0⟩, ⟨0, 0, -0.3⟩, 0⟩

/-- Incoming ray for the metal-reflection scenario: direction `(1,-1,0)`. -/
def ray8 : Ray := ⟨⟨0, 0, 0⟩, ⟨1, -1, 0⟩⟩

/-- Hit record with normal `(0,1,0)` for the metal-reflection scenario. -/
def hr8 : HitRecord := ⟨⟨0, 0, 0⟩, ⟨0, 1, 0⟩, 1, true, Material.Metal ⟨0.8, 0.8, 0.8⟩ 0⟩

/-- Random draws for the metal-reflection scenario (all zero; irrelevant at
`fuzz = 0`). -/
def rs8 : RandSrc := ⟨⟨0, 0, 0⟩, ⟨0, 0, 0⟩, 0⟩

/-- Geometric equality of hit records: equal in every field except the
material reference. -/
def HitRecord.geomEq (h1 h2 : HitRecord) : Prop :=
  h1.point = h2.point ∧ h1.normal = h2.normal ∧ h1.t = h2.t ∧
    h1.front_face = h2.front_face

/-- Geometric equality of optional hit records. -/
def optGeomEq : Option HitRecord → Option HitRecord → Prop
  | none, none => True
  | some h1, some h2 => h1.geomEq h2
  | _, _ => False

@[simp] theorem Vec3.add_x (v w : Vec3) : (v + w).x = v.x + w.x := rfl

@[simp] theorem Vec3.add_y (v w : Vec3) : (v + w).y = v.y + w.y := rfl

@[simp] theorem Vec3.add_z (v w : Vec3) : (v + w).z = v.z + w.z := rfl

@[simp] theorem Vec3.sub_x (v w : Vec3) : (v - w).x = v.x - w.x := rfl

@[simp] theorem Vec3.sub_y (v w : Vec3) : (v - w).y = v.y - w.y := rfl

@[simp] theorem Vec3.sub_z (v w : Vec3) : (v - w).z = v.z - w.z := rfl

@[simp] theorem Vec3.neg_x (v : Vec3) : (-v).x = -v.x := rfl

@[simp] theorem Vec3.neg_y (v : Vec3) : (-v).y = -v.y := rfl

@[simp] theorem Vec3.neg_z (v : Vec3) : (-v).z = -v.z := rfl

@[simp] theorem Vec3.mul_x (v w : Vec3) : (v * w).x = v.x * w.x := rfl

@[simp] theorem Vec3.mul_y (v w : Vec3) : (v * w).y = v.y * w.y := rfl

@[simp] theorem Vec3.mul_z (v w : Vec3) : (v * w).z = v.z * w.z := rfl

@[simp] theorem Vec3.smul_x (a : ℝ) (v : Vec3) : (a • v).x = a * v.x := rfl

@[simp] theorem Vec3.smul_y (a : ℝ) (v : Vec3) : (a • v).y = a * v.y := rfl

@[simp] theorem Vec3.smul_z (a : ℝ) (v : Vec3) : (a • v).z = a * v.z := rfl

@[ext] theorem Vec3.ext {v w : Vec3} (hx : v.x = w.x) (hy : v.y = w.y)
    (hz : v.z = w.z) : v = w := by
  cases v; cases w; simp_all

theorem Vec3.mk_add_mk (a b c d e f : ℝ) :
    (⟨a, b, c⟩ + ⟨d, e, f⟩ : Vec3) = ⟨a + d, b + e, c + f⟩ := rfl

theorem Vec3.mk_sub_mk (a b c d e f : ℝ) :
    (⟨a, b, c⟩ - ⟨d, e, f⟩ : Vec3) = ⟨a - d, b - e, c - f⟩ := rfl

theorem Vec3.smul_mk (r a b c : ℝ) :
    r • (⟨a, b, c⟩ : Vec3) = ⟨r * a, r * b, r * c⟩ := rfl

theorem Vec3.neg_mk (a b c : ℝ) : (-(⟨a, b, c⟩ : Vec3)) = ⟨-a, -b, -c⟩ := rfl

/-- C6: for every ray and every scene, `ray_color` called with `depth == 0`
returns exactly the color `(0,0,0)`. -/
theorem rayColor_depth_zero_black (ray : Ray) (world : List Sphere) (rng : ℕ → Vec3) :
    rayColor ray world 0 rng = ⟨0, 0, 0⟩ := rfl

/-- C9: for every refraction ratio, Schlick reflectance at `cosine = 1`
equals `r0 = ((1 - ratio)/(1 + ratio))^2` exactly, and at `cosine = 0`
equals `1` exactly. -/
theorem reflectance_endpoints (m : Material) (ref_idx : ℝ) :
    m.reflectance 1 ref_idx = ((1 - ref_idx) / (1 + ref_idx)) ^ 2 ∧
    m.reflectance 0 ref_idx = 1 := by
  unfold Material.reflectance
  constructor <;> ring

/-- C4: `Material::scatter` returns `None` exactly when the material is a
`Metal` and the perturbed scattered direction `d` satisfies
`d · normal ≤ 0`; Lambertian and Dielectric materials always scatter. -/
theorem scatter_none_iff_metal_absorbed (m : Material) (ray : Ray)
    (hr : HitRecord) (rs : RandSrc) :
    m.scatter ray hr rs = none ↔
      ∃ albedo fuzz, m = Material.Metal albedo fuzz ∧
        ((ray.direction.unit).reflect hr.normal + fuzz • rs.sphereVec).dot hr.normal ≤ 0 := by
  cases m with
  | Lambertian albedo => simp [Material.scatter]
  | Metal albedo fuzz =>
    simp only [Material.scatter]
    by_cases h :
        ((ray.direction.unit).reflect hr.normal + fuzz • rs.sphereVec).dot hr.normal ≤ 0
    · simp only [if_pos h]
      exact ⟨fun _ => ⟨albedo, fuzz, rfl, h⟩, fun _ => by trivial⟩
    · simp only [if_neg h]
      constructor
      · intro hc; exact absurd hc (by simp)
      · rintro ⟨a, f, heq, hle⟩
        injection heq with ha hf
        exact absurd (hf ▸ hle) h
  | Dielectric ior => simp [Material.scatter]

/-- C7 counterexample: `Material::new_metal` stores a fuzz argument of `2`
unchanged, and `2` does not lie in `[0, 1]` — no clamping occurs at
construction. -/
theorem new_metal_clamp_cex :
    Material.new_metal ⟨1, 1, 1⟩ 2 = Material.Metal ⟨1, 1, 1⟩ 2 ∧
    ¬ (2 : ℝ) ∈ Set.Icc (0 : ℝ) 1 := by
  refine ⟨rfl, ?_⟩
  simp only [Set.mem_Icc, not_and]
  intro _; norm_num

/-- C7 amended: `Material::new_metal` stores the given fuzz value as-is,
with no clamping to `[0, 1]`. -/
theorem new_metal_stores_fuzz (albedo : Color) (fuzz : ℝ) :
    Material.new_metal albedo fuzz = Material.Metal albedo fuzz := rfl

theorem Vec3.length_squared_nonneg (v : Vec3) : 0 ≤ v.length_squared := by
  unfold Vec3.length_squared
  nlinarith [mul_self_nonneg v.x, mul_self_nonneg v.y, mul_self_nonneg v.z]

theorem sphereRoot0_le_sphereRoot1 (s : Sphere) (ray : Ray) :
    sphereRoot0 s ray ≤ sphereRoot1 s ray := by
  unfold sphereRoot0 sphereRoot1
  have hs := Real.sqrt_nonneg (sphereDisc s ray)
  exact div_le_div_of_nonneg_right (by linarith)
    (Vec3.length_squared_nonneg ray.direction)

theorem sphereRecord_t (s : Sphere) (ray : Ray) (t : ℝ) :
    (sphereRecord s ray t).t = t := rfl

theorem Sphere.hit_t_mem (s : Sphere) (ray : Ray) (t_min : ℝ) (t_max : WithTop ℝ)
    (hr : HitRecord) (h : s.hit ray t_min t_max = some hr) :
    t_min ≤ hr.t ∧ (hr.t : WithTop ℝ) ≤ t_max := by
  unfold Sphere.hit at h
  split_ifs at h with h1 h2 h3
  all_goals first
    | exact Option.noConfusion h
    | (obtain rfl := Option.some.inj h; push_neg at h3; exact ⟨h3.1, h3.2⟩)
    | (obtain rfl := Option.some.inj h; push_neg at h2; exact ⟨h2.1, h2.2⟩)

theorem Sphere.hit_root (s : Sphere) (ray : Ray) (t_min : ℝ) (t_max : WithTop ℝ)
    (hr : HitRecord) (h : s.hit ray t_min t_max = some hr) :
    0 ≤ sphereDisc s ray ∧
    (hr = sphereRecord s ray (sphereRoot0 s ray) ∨
      hr = sphereRecord s ray (sphereRoot1 s ray)) := by
  unfold Sphere.hit at h
  split_ifs at h with h1 h2 h3
  all_goals first
    | exact Option.noConfusion h
    | exact ⟨not_lt.mp h1, Or.inr (Option.some.inj h).symm⟩
    | exact ⟨not_lt.mp h1, Or.inl (Option.some.inj h).symm⟩

theorem root_quadratic (s : Sphere) (ray : Ray)
    (ha : ray.direction.length_squared ≠ 0) (hd : 0 ≤ sphereDisc s ray) (t : ℝ)
    (ht : t = sphereRoot0 s ray ∨ t = sphereRoot1 s ray) :
    ray.direction.length_squared * (t * t) + 2 * sphereHalfB s ray * t +
      sphereC s ray = 0 := by
  have hsq : Real.sqrt (sphereDisc s ray) * Real.sqrt (sphereDisc s ray) =
      sphereDisc s ray := Real.mul_self_sqrt hd
  have hdisc : sphereDisc s ray =
      sphereHalfB s ray * sphereHalfB s ray -
        ray.direction.length_squared * sphereC s ray := rfl
  obtain ⟨e, he, hat⟩ : ∃ e, e * e = sphereDisc s ray ∧
      ray.direction.length_squared * t = -sphereHalfB s ray + e := by
    rcases ht with rfl | rfl
    · refine ⟨-Real.sqrt (sphereDisc s ray), by rw [neg_mul_neg, hsq], ?_⟩
      unfold sphereRoot0
      rw [mul_comm, div_mul_cancel₀ _ ha]
      ring
    · refine ⟨Real.sqrt (sphereDisc s ray), hsq, ?_⟩
      unfold sphereRoot1
      rw [mul_comm, div_mul_cancel₀ _ ha]
  have key : ray.direction.length_squared *
      (ray.direction.length_squared * (t * t) + 2 * sphereHalfB s ray * t +
        sphereC s ray) = 0 := by
    have expand : ray.direction.length_squared *
        (ray.direction.length_squared * (t * t) + 2 * sphereHalfB s ray * t +
          sphereC s ray) =
        (ray.direction.length_squared * t) * (ray.direction.length_squared * t) +
          2 * sphereHalfB s ray * (ray.direction.length_squared * t) +
          ray.direction.length_squared * sphereC s ray := by ring
    rw [expand, hat]
    have step : (-sphereHalfB s ray + e) * (-sphereHalfB s ray + e) +
        2 * sphereHalfB s ray * (-sphereHalfB s ray + e) +
        ray.direction.length_squared * sphereC s ray =
        e * e - sphereHalfB s ray * sphereHalfB s ray +
          ray.direction.length_squared * sphereC s ray := by ring
    rw [step, he, hdisc]
    ring
  rcases mul_eq_zero.mp key with h | h
  · exact absurd h ha
  · exact h

theorem hit_point_lsq (s : Sphere) (ray : Ray)
    (ha : ray.direction.length_squared ≠ 0) (hd : 0 ≤ sphereDisc s ray) (t : ℝ)
    (ht : t = sphereRoot0 s ray ∨ t = sphereRoot1 s ray) :
    (ray.at' t - s.center).length_squared = s.radius * s.radius := by
  have hq := root_quadratic s ray ha hd t ht
  have hexp : (ray.at' t - s.center).length_squared =
      ray.direction.length_squared * (t * t) + 2 * sphereHalfB s ray * t +
        (sphereC s ray + s.radius * s.radius) := by
    unfold sphereHalfB sphereC Ray.at' Vec3.dot Vec3.length_squared
    simp only [Vec3.add_x, Vec3.add_y, Vec3.add_z, Vec3.sub_x, Vec3.sub_y,
      Vec3.sub_z, Vec3.smul_x, Vec3.smul_y, Vec3.smul_z]
    ring
  rw [hexp]
  linarith

/-- C3: every accepted sphere hit has its `t` inside the bounds, its point on
the sphere (the distance to the center equals the radius, well within
tolerance `1e-6`), the stored point equal to `ray.at(t)`, a normal opposing
the ray direction, and `front_face` true exactly when the ray direction has
negative dot product with the outward normal. -/
theorem sphereHit_sound (s : Sphere) (ray : Ray) (t_min : ℝ) (t_max : WithTop ℝ)
    (hrad : 0 < s.radius) (hdir : 0 < ray.direction.length)
    (hr : HitRecord) (h : s.hit ray t_min t_max = some hr) :
    t_min ≤ hr.t ∧ (hr.t : WithTop ℝ) ≤ t_max ∧
    |(ray.at' hr.t - s.center).length - s.radius| ≤ 1e-6 ∧
    hr.point = ray.at' hr.t ∧
    ray.direction.dot hr.normal ≤ 0 ∧
    (hr.front_face = true ↔
      ray.direction.dot (((1 : ℝ) / s.radius) • (ray.at' hr.t - s.center)) < 0) := by
  have hmem := Sphere.hit_t_mem s ray t_min t_max hr h
  obtain ⟨hd, hcase⟩ := Sphere.hit_root s ray t_min t_max hr h
  have ha : ray.direction.length_squared ≠ 0 := by
    intro h0
    rw [Vec3.length, h0, Real.sqrt_zero] at hdir
    exact lt_irrefl 0 hdir
  have hrec : hr = sphereRecord s ray hr.t := by
    rcases hcase with rfl | rfl <;> rfl
  have htroot : hr.t = sphereRoot0 s ray ∨ hr.t = sphereRoot1 s ray := by
    rcases hcase with rfl | rfl
    · exact Or.inl rfl
    · exact Or.inr rfl
  have hlsq := hit_point_lsq s ray ha hd hr.t htroot
  have hlen : (ray.at' hr.t - s.center).length = s.radius := by
    unfold Vec3.length
    rw [hlsq]
    exact Real.sqrt_mul_self hrad.le
  refine ⟨hmem.1, hmem.2, ?_, ?_, ?_, ?_⟩
  · rw [hlen, sub_self, abs_zero]; norm_num
  · rw [hrec]; rfl
  · rw [hrec]
    simp only [sphereRecord, HitRecord.face_normal]
    split_ifs with hface
    · exact le_of_lt hface
    · have hdotneg : ∀ v w : Vec3, v.dot (-w) = -(v.dot w) := by
        intro v w; unfold Vec3.dot; simp; ring
      simp only [hdotneg]
      linarith [not_lt.mp hface]
  · rw [hrec]
    simp only [sphereRecord, HitRecord.face_normal]
    split_ifs with hface
    · simpa using hface
    · simpa using hface

theorem w3_hit : s3.hit r3 0 ((10 : ℝ) : WithTop ℝ) = some h3rec := by
  have hd : sphereDisc s3 r3 = 1 := by
    unfold sphereDisc sphereHalfB sphereC s3 r3 Vec3.dot Vec3.length_squared
    norm_num [Vec3.sub_x, Vec3.sub_y, Vec3.sub_z]
  have h0 : sphereRoot0 s3 r3 = 1 := by
    unfold sphereRoot0
    rw [hd, Real.sqrt_one]
    unfold sphereHalfB s3 r3 Vec3.dot Vec3.length_squared
    norm_num [Vec3.sub_x, Vec3.sub_y, Vec3.sub_z]
  unfold Sphere.hit
  rw [hd, h0]
  rw [if_neg (by norm_num : ¬ (1 : ℝ) < 0)]
  rw [if_neg (by simp [WithTop.coe_lt_coe] : ¬ ((1 : ℝ) < 0 ∨
    ((10 : ℝ) : WithTop ℝ) < ((1 : ℝ) : WithTop ℝ)))]
  unfold sphereRecord HitRecord.face_normal Ray.at' h3rec s3 r3
  norm_num [Vec3.dot, Vec3.add_x, Vec3.add_y, Vec3.add_z, Vec3.sub_x, Vec3.sub_y,
    Vec3.sub_z, Vec3.smul_x, Vec3.smul_y, Vec3.smul_z, Vec3.mk_add_mk,
    Vec3.mk_sub_mk, Vec3.smul_mk, Vec3.mk.injEq]

/-- C3 witness: `sphereHit_sound` applied to the concrete sphere `s3`, ray
`r3` and bounds `[0, 10]`, whose hit is `h3rec` at `t = 1`. -/
theorem sphereHit_sound_witness :
    (0 : ℝ) < s3.radius ∧ 0 < r3.direction.length ∧
    s3.hit r3 0 ((10 : ℝ) : WithTop ℝ) = some h3rec ∧
    ((0 : ℝ) ≤ h3rec.t ∧ (h3rec.t : WithTop ℝ) ≤ ((10 : ℝ) : WithTop ℝ) ∧
      |(r3.at' h3rec.t - s3.center).length - s3.radius| ≤ 1e-6 ∧
      h3rec.point = r3.at' h3rec.t ∧
      r3.direction.dot h3rec.normal ≤ 0 ∧
      (h3rec.front_face = true ↔
        r3.direction.dot (((1 : ℝ) / s3.radius) • (r3.at' h3rec.t - s3.center)) < 0)) := by
  have hrad : (0 : ℝ) < s3.radius := by unfold s3; norm_num
  have hdir : 0 < r3.direction.length := by
    show (0 : ℝ) < Vec3.length ⟨0, 0, -1⟩
    unfold Vec3.length Vec3.length_squared
    norm_num [Real.sqrt_one]
  exact ⟨hrad, hdir, w3_hit, sphereHit_sound s3 r3 0 _ hrad hdir h3rec w3_hit⟩

/-- C5: for every ray (with nonzero direction) that hits nothing in
`[0.001, ∞)` and every positive depth, `ray_color` returns exactly the
background gradient `(1-t)·(1,1,1) + t·(0.5,0.7,1.0)` with
`t = 0.5·(unit(direction).y + 1)`; the empty scene always misses. -/
theorem rayColor_miss_background (ray : Ray) (world : List Sphere) (depth : ℕ)
    (rng : ℕ → Vec3) (hdir : ray.direction ≠ ⟨0, 0, 0⟩) (hdepth : 0 < depth)
    (hmiss : hitList world ray 0.001 ⊤ = none) :
    rayColor ray world depth rng =
      (1 - 0.5 * (ray.direction.unit.y + 1)) • (⟨1, 1, 1⟩ : Color) +
        (0.5 * (ray.direction.unit.y + 1)) • (⟨0.5, 0.7, 1.0⟩ : Color) := by
  obtain ⟨d, rfl⟩ : ∃ d, depth = d + 1 :=
    ⟨depth - 1, (Nat.succ_pred_eq_of_pos hdepth).symm⟩
  simp only [rayColor, hmiss]

/-- C5 witness: the ray from the origin straight up misses the empty scene
and `ray_color` at depth 1 equals the background gradient for it. -/
theorem rayColor_miss_background_witness :
    ((⟨⟨0, 0, 0⟩, ⟨0, 1, 0⟩⟩ : Ray).direction ≠ (⟨0, 0, 0⟩ : Vec3)) ∧ 0 < 1 ∧
    hitList [] ⟨⟨0, 0, 0⟩, ⟨0, 1, 0⟩⟩ 0.001 ⊤ = none ∧
    rayColor ⟨⟨0, 0, 0⟩, ⟨0, 1, 0⟩⟩ [] 1 rngW =
      (1 - 0.5 * ((⟨⟨0, 0, 0⟩, ⟨0, 1, 0⟩⟩ : Ray).direction.unit.y + 1)) • (⟨1, 1, 1⟩ : Color) +
        (0.5 * ((⟨⟨0, 0, 0⟩, ⟨0, 1, 0⟩⟩ : Ray).direction.unit.y + 1)) • (⟨0.5, 0.7, 1.0⟩ : Color) := by
  have hdir : (⟨⟨0, 0, 0⟩, ⟨0, 1, 0⟩⟩ : Ray).direction ≠ (⟨0, 0, 0⟩ : Vec3) := by
    show (⟨0, 1, 0⟩ : Vec3) ≠ ⟨0, 0, 0⟩
    norm_num [Vec3.mk.injEq]
  exact ⟨hdir, by norm_num, rfl,
    rayColor_miss_background _ _ _ _ hdir (by norm_num) rfl⟩

theorem Sphere.hit_narrow_some (s : Sphere) (ray : Ray) (t_min : ℝ)
    (t_max : WithTop ℝ) (hr : HitRecord) (h : s.hit ray t_min t_max = some hr)
    (c : WithTop ℝ) (hc1 : (hr.t : WithTop ℝ) ≤ c) (hc2 : c ≤ t_max) :
    s.hit ray t_min c = some hr := by
  have hle : (sphereRoot0 s ray : WithTop ℝ) ≤ (sphereRoot1 s ray : WithTop ℝ) :=
    WithTop.coe_le_coe.mpr (sphereRoot0_le_sphereRoot1 s ray)
  unfold Sphere.hit at h ⊢
  split_ifs at h with h1 h2 h3
  all_goals first
    | exact Option.noConfusion h
    | -- accepted root is root1; h2 rejected root0 against the wide bounds
      (obtain rfl := Option.some.inj h
       push_neg at h3
       have hc1' : (sphereRoot1 s ray : WithTop ℝ) ≤ c := hc1
       have h20 : sphereRoot0 s ray < t_min := by
         rcases h2 with h2a | h2b
         · exact h2a
         · exact absurd (lt_of_le_of_lt (le_trans hle h3.2) h2b) (lt_irrefl _)
       rw [if_neg h1, if_pos (Or.inl h20),
         if_neg (by push_neg; exact ⟨h3.1, hc1'⟩)])
    | -- accepted root is root0
      (obtain rfl := Option.some.inj h
       push_neg at h2
       have hc1' : (sphereRoot0 s ray : WithTop ℝ) ≤ c := hc1
       rw [if_neg h1, if_neg (by push_neg; exact ⟨h2.1, hc1'⟩)])

theorem Sphere.hit_narrow_none (s : Sphere) (ray : Ray) (t_min : ℝ)
    (t_max : WithTop ℝ) (hr : HitRecord) (h : s.hit ray t_min t_max = some hr)
    (c : WithTop ℝ) (hc : c < (hr.t : WithTop ℝ)) :
    s.hit ray t_min c = none := by
  have hle : (sphereRoot0 s ray : WithTop ℝ) ≤ (sphereRoot1 s ray : WithTop ℝ) :=
    WithTop.coe_le_coe.mpr (sphereRoot0_le_sphereRoot1 s ray)
  unfold Sphere.hit at h ⊢
  split_ifs at h with h1 h2 h3
  all_goals first
    | exact Option.noConfusion h
    | -- accepted root is root1
      (obtain rfl := Option.some.inj h
       push_neg at h3
       have hc' : c < (sphereRoot1 s ray : WithTop ℝ) := hc
       have h20 : sphereRoot0 s ray < t_min := by
         rcases h2 with h2a | h2b
         · exact h2a
         · exact absurd (lt_of_le_of_lt (le_trans hle h3.2) h2b) (lt_irrefl _)
       rw [if_neg h1, if_pos (Or.inl h20), if_pos (Or.inr hc')])
    | -- accepted root is root0
      (obtain rfl := Option.some.inj h
       have hc' : c < (sphereRoot0 s ray : WithTop ℝ) := hc
       rw [if_neg h1, if_pos (Or.inr hc'),
         if_pos (Or.inr (lt_of_lt_of_le hc' hle))])

theorem Sphere.hit_none_narrow (s : Sphere) (ray : Ray) (t_min : ℝ)
    (t_max : WithTop ℝ) (h : s.hit ray t_min t_max = none)
    (c : WithTop ℝ) (hc : c ≤ t_max) : s.hit ray t_min c = none := by
  unfold Sphere.hit at h ⊢
  split_ifs at h with h1 h2 h3
  all_goals first
    | exact Option.noConfusion h
    | rw [if_pos h1]
    | (have h2' : sphereRoot0 s ray < t_min ∨
          c < (sphereRoot0 s ray : WithTop ℝ) := by
        rcases h2 with h2a | h2b
        · exact Or.inl h2a
        · exact Or.inr (lt_of_le_of_lt hc h2b)
       have h3' : sphereRoot1 s ray < t_min ∨
          c < (sphereRoot1 s ray : WithTop ℝ) := by
        rcases h3 with h3a | h3b
        · exact Or.inl h3a
        · exact Or.inr (lt_of_le_of_lt hc h3b)
       rw [if_neg h1, if_pos h2', if_pos h3'])

theorem Sphere.hit_widen (s : Sphere) (ray : Ray) (t_min : ℝ)
    (c t_max : WithTop ℝ) (hc : c ≤ t_max) (hr : HitRecord)
    (h : s.hit ray t_min c = some hr) : s.hit ray t_min t_max = some hr := by
  cases hw : s.hit ray t_min t_max with
  | none =>
    rw [Sphere.hit_none_narrow s ray t_min t_max hw c hc] at h
    exact Option.noConfusion h
  | some hr' =>
    rcases lt_or_le c (hr'.t : WithTop ℝ) with hlt | hle
    · rw [Sphere.hit_narrow_none s ray t_min t_max hr' hw c hlt] at h
      exact Option.noConfusion h
    · rw [Sphere.hit_narrow_some s ray t_min t_max hr' hw c hle hc] at h
      rw [Option.some.inj h]

theorem hitListAux_some (ray : Ray) (t_min : ℝ) (l : List Sphere) :
    ∀ (best : HitRecord) (c : WithTop ℝ),
      hitListAux ray t_min l (some best) c =
        some ((hitList l ray t_min c).getD best) := by
  induction l with
  | nil => intro best c; simp [hitListAux, hitList]
  | cons s rest ih =>
    intro best c
    cases h : s.hit ray t_min c with
    | some hr =>
      simp only [hitListAux, hitList, h, ih, Option.getD_some]
    | none =>
      simp only [hitListAux, hitList, h, ih]

theorem hitList_cons (s : Sphere) (rest : List Sphere) (ray : Ray) (t_min : ℝ)
    (t_max : WithTop ℝ) :
    hitList (s :: rest) ray t_min t_max =
      match s.hit ray t_min t_max with
      | some hr => some ((hitList rest ray t_min (hr.t : WithTop ℝ)).getD hr)
      | none => hitList rest ray t_min t_max := by
  cases h : s.hit ray t_min t_max with
  | some hr => simp only [hitList, hitListAux, h, hitListAux_some]
  | none => simp only [hitList, hitListAux, h]

theorem hitList_none_iff (l : List Sphere) (ray : Ray) (t_min : ℝ)
    (t_max : WithTop ℝ) :
    hitList l ray t_min t_max = none ↔
      ∀ s ∈ l, s.hit ray t_min t_max = none := by
  induction l with
  | nil => simp [hitList, hitListAux]
  | cons s rest ih =>
    rw [hitList_cons]
    cases h : s.hit ray t_min t_max with
    | some hr => simp [h]
    | none => simp [h, List.forall_mem_cons, ih]

theorem hitList_min (ray : Ray) (t_min : ℝ) (l : List Sphere) :
    ∀ (t_max : WithTop ℝ) (hr : HitRecord),
      hitList l ray t_min t_max = some hr →
      (∃ s ∈ l, ∃ hr', s.hit ray t_min t_max = some hr' ∧ hr'.t = hr.t) ∧
      (∀ s ∈ l, ∀ hr', s.hit ray t_min t_max = some hr' → hr.t ≤ hr'.t) := by
  induction l with
  | nil => intro t_max hr h; simp [hitList, hitListAux] at h
  | cons s rest ih =>
    intro t_max hr h
    rw [hitList_cons] at h
    cases h0 : s.hit ray t_min t_max with
    | none =>
      rw [h0] at h
      replace h : hitList rest ray t_min t_max = some hr := h
      obtain ⟨⟨s', hs', hr', hhit', ht'⟩, hmin⟩ := ih t_max hr h
      refine ⟨⟨s', List.mem_cons_of_mem _ hs', hr', hhit', ht'⟩, ?_⟩
      intro s2 hs2 hr2 hhit2
      rcases List.mem_cons.mp hs2 with rfl | hs2r
      · rw [h0] at hhit2; exact Option.noConfusion hhit2
      · exact hmin s2 hs2r hr2 hhit2
    | some hr0 =>
      rw [h0] at h
      replace h : some ((hitList rest ray t_min (hr0.t : WithTop ℝ)).getD hr0) =
          some hr := h
      have hb := Sphere.hit_t_mem s ray t_min t_max hr0 h0
      cases hX : hitList rest ray t_min (hr0.t : WithTop ℝ) with
      | none =>
        rw [hX] at h
        simp only [Option.getD_none] at h
        obtain rfl := Option.some.inj h
        refine ⟨⟨s, List.mem_cons_self s rest, hr0, h0, rfl⟩, ?_⟩
        intro s2 hs2 hr2 hhit2
        rcases List.mem_cons.mp hs2 with rfl | hs2r
        · rw [h0] at hhit2
          rw [Option.some.inj hhit2]
        · by_contra hlt
          push_neg at hlt
          have hcoe : (hr2.t : WithTop ℝ) ≤ (hr0.t : WithTop ℝ) :=
            WithTop.coe_le_coe.mpr hlt.le
          have hnar := Sphere.hit_narrow_some s2 ray t_min t_max hr2 hhit2 _ hcoe hb.2
          rw [(hitList_none_iff rest ray t_min _).mp hX s2 hs2r] at hnar
          exact Option.noConfusion hnar
      | some hr2 =>
        rw [hX] at h
        simp only [Option.getD_some] at h
        obtain rfl := Option.some.inj h
        obtain ⟨⟨s', hs', hr'', hhit'', ht''⟩, hmin⟩ := ih _ hr2 hX
        have hw := Sphere.hit_widen s' ray t_min _ t_max hb.2 hr'' hhit''
        have hr2le : hr2.t ≤ hr0.t := by
          have hm2 := Sphere.hit_t_mem s' ray t_min _ hr'' hhit''
          have h2 := WithTop.coe_le_coe.mp hm2.2
          rw [ht''] at h2
          exact h2
        refine ⟨⟨s', List.mem_cons_of_mem _ hs', hr'', hw, ht''⟩, ?_⟩
        intro s2 hs2 hr3 hhit3
        rcases List.mem_cons.mp hs2 with rfl | hs2r
        · rw [h0] at hhit3
          rw [← Option.some.inj hhit3]
          exact hr2le
        · by_contra hlt
          push_neg at hlt
          have hco : (hr3.t : WithTop ℝ) ≤ (hr0.t : WithTop ℝ) :=
            WithTop.coe_le_coe.mpr (le_trans hlt.le hr2le)
          have hnar := Sphere.hit_narrow_some s2 ray t_min t_max hr3 hhit3 _ hco hb.2
          exact absurd hlt (not_lt.mpr (hmin s2 hs2r hr3 hnar))

/-- C2: for bounds `t_min ≤ t_max`, the slice `hit` returns `None` exactly
when every member sphere, tested independently against the full bounds,
returns `None`; and any returned record has `t` equal to the minimum `t`
over the records of the independent member tests. -/
theorem hitList_nearest (l : List Sphere) (ray : Ray) (t_min : ℝ)
    (t_max : WithTop ℝ) (hbound : (t_min : WithTop ℝ) ≤ t_max) :
    (hitList l ray t_min t_max = none ↔
      ∀ s ∈ l, s.hit ray t_min t_max = none) ∧
    (∀ hr, hitList l ray t_min t_max = some hr →
      (∃ s ∈ l, ∃ hr', s.hit ray t_min t_max = some hr' ∧ hr'.t = hr.t) ∧
      (∀ s ∈ l, ∀ hr', s.hit ray t_min t_max = some hr' → hr.t ≤ hr'.t)) :=
  ⟨hitList_none_iff l ray t_min t_max,
    fun hr h => hitList_min ray t_min l t_max hr h⟩

/-- C2 witness: `hitList_nearest` applied to the two-sphere scene
`[s3, s5]` with the ray `r3` and bounds `[0, 10]`. -/
theorem hitList_nearest_witness :
    ((0 : ℝ) : WithTop ℝ) ≤ ((10 : ℝ) : WithTop ℝ) ∧
    ((hitList [s3, s5] r3 0 ((10 : ℝ) : WithTop ℝ) = none ↔
      ∀ s ∈ [s3, s5], s.hit r3 0 ((10 : ℝ) : WithTop ℝ) = none) ∧
    (∀ hr, hitList [s3, s5] r3 0 ((10 : ℝ) : WithTop ℝ) = some hr →
      (∃ s ∈ [s3, s5], ∃ hr', s.hit r3 0 ((10 : ℝ) : WithTop ℝ) = some hr' ∧
        hr'.t = hr.t) ∧
      (∀ s ∈ [s3, s5], ∀ hr', s.hit r3 0 ((10 : ℝ) : WithTop ℝ) = some hr' →
        hr.t ≤ hr'.t))) :=
  ⟨WithTop.coe_le_coe.mpr (by norm_num),
    hitList_nearest [s3, s5] r3 0 _ (WithTop.coe_le_coe.mpr (by norm_num))⟩

theorem cex_hit : cexSphere.hit cexRay 0.001 ⊤ = some cexHr := by
  have hd : sphereDisc cexSphere cexRay = 1 := by
    unfold sphereDisc sphereHalfB sphereC cexSphere cexRay Vec3.dot Vec3.length_squared
    norm_num [Vec3.sub_x, Vec3.sub_y, Vec3.sub_z]
  have h0 : sphereRoot0 cexSphere cexRay = 1 := by
    unfold sphereRoot0
    rw [hd, Real.sqrt_one]
    unfold sphereHalfB cexSphere cexRay Vec3.dot Vec3.length_squared
    norm_num [Vec3.sub_x, Vec3.sub_y, Vec3.sub_z]
  unfold Sphere.hit
  rw [hd, h0]
  rw [if_neg (by norm_num : ¬ (1 : ℝ) < 0)]
  rw [if_neg (by norm_num [not_top_lt] : ¬ ((1 : ℝ) < 0.001 ∨
    (⊤ : WithTop ℝ) < ((1 : ℝ) : WithTop ℝ)))]
  unfold sphereRecord HitRecord.face_normal Ray.at' cexHr cexSphere cexRay cexMat
  norm_num [Vec3.dot, Vec3.add_x, Vec3.add_y, Vec3.add_z, Vec3.sub_x, Vec3.sub_y,
    Vec3.sub_z, Vec3.smul_x, Vec3.smul_y, Vec3.smul_z, Vec3.mk_add_mk,
    Vec3.mk_sub_mk, Vec3.smul_mk, Vec3.mk.injEq]

theorem cex_hitList : hitList [cexSphere] cexRay 0.001 ⊤ = some cexHr := by
  simp only [hitList, hitListAux, cex_hit]

theorem cex_scatter : Material.scatter cexMat cexRay cexHr cexRS = none := by
  have hunit : cexRay.direction.unit = ⟨0, 0, -1⟩ := by
    unfold cexRay Vec3.unit Vec3.length Vec3.length_squared
    norm_num [Real.sqrt_one, Vec3.smul_mk, Vec3.mk.injEq]
  have hdir : (Vec3.reflect ⟨0, 0, -1⟩ cexHr.normal + (5 : ℝ) • cexRS.sphereVec) =
      ⟨0, 0, -0.5⟩ := by
    unfold Vec3.reflect cexHr cexRS Vec3.dot
    norm_num [Vec3.smul_mk, Vec3.mk_sub_mk, Vec3.mk_add_mk, Vec3.mk.injEq]
  have hstep : Material.scatter cexMat cexRay cexHr cexRS =
      (if ((cexRay.direction.unit).reflect cexHr.normal +
            (5 : ℝ) • cexRS.sphereVec).dot cexHr.normal ≤ 0 then none
       else some (Scatter.mk ⟨1, 1, 1⟩ (Ray.mk cexHr.point
         ((cexRay.direction.unit).reflect cexHr.normal +
           (5 : ℝ) • cexRS.sphereVec)))) := rfl
  rw [hstep, hunit, hdir]
  rw [if_pos (show (⟨0, 0, -0.5⟩ : Vec3).dot cexHr.normal ≤ 0 by
    unfold cexHr Vec3.dot; norm_num)]

theorem cex_ray2_hit :
    cexSphere.hit ⟨⟨0, 0, -1⟩, ⟨1, 0, 1⟩⟩ 0.001 ⊤ = none := by
  have hd : sphereDisc cexSphere ⟨⟨0, 0, -1⟩, ⟨1, 0, 1⟩⟩ = 1 := by
    unfold sphereDisc sphereHalfB sphereC cexSphere Vec3.dot Vec3.length_squared
    norm_num [Vec3.sub_x, Vec3.sub_y, Vec3.sub_z]
  have h0 : sphereRoot0 cexSphere ⟨⟨0, 0, -1⟩, ⟨1, 0, 1⟩⟩ = -1 := by
    unfold sphereRoot0
    rw [hd, Real.sqrt_one]
    unfold sphereHalfB cexSphere Vec3.dot Vec3.length_squared
    norm_num [Vec3.sub_x, Vec3.sub_y, Vec3.sub_z]
  have h1 : sphereRoot1 cexSphere ⟨⟨0, 0, -1⟩, ⟨1, 0, 1⟩⟩ = 0 := by
    unfold sphereRoot1
    rw [hd, Real.sqrt_one]
    unfold sphereHalfB cexSphere Vec3.dot Vec3.length_squared
    norm_num [Vec3.sub_x, Vec3.sub_y, Vec3.sub_z]
  unfold Sphere.hit
  rw [hd, h0, h1]
  rw [if_neg (by norm_num : ¬ (1 : ℝ) < 0)]
  rw [if_pos (Or.inl (by norm_num : (-1 : ℝ) < 0.001))]
  rw [if_pos (Or.inl (by norm_num : (0 : ℝ) < 0.001))]

theorem cex_raycolor : rayColor cexRay [cexSphere] 2 rngW = ⟨0.375, 0.425, 0.5⟩ := by
  have h2miss : hitList [cexSphere] ⟨⟨0, 0, -1⟩, ⟨1, 0, 1⟩⟩ 0.001 ⊤ = none := by
    simp only [hitList, hitListAux, cex_ray2_hit]
  have htarget : cexHr.point + cexHr.normal + rngW 0 - cexHr.point = ⟨1, 0, 1⟩ := by
    unfold cexHr rngW
    norm_num [Vec3.mk_add_mk, Vec3.mk_sub_mk, Vec3.mk.injEq]
  rw [show (2 : ℕ) = 1 + 1 from rfl]
  simp only [rayColor, cex_hitList]
  rw [show cexHr.point = (⟨0, 0, -1⟩ : Vec3) from rfl] at htarget ⊢
  rw [htarget]
  simp only [h2miss]
  unfold Vec3.unit Vec3.length Vec3.length_squared
  norm_num [Vec3.smul_x, Vec3.smul_y, Vec3.smul_z, Vec3.smul_mk, Vec3.mk_add_mk,
    Vec3.mk.injEq]

/-- C1 counterexample: for the concrete metal scene `[cexSphere]`, ray
`cexRay`, depth `2` and the given random draws, the nearest hit exists and
its material's scatter returns `None` (the in-unit-sphere draw is
realizable), yet `ray_color` returns `(0.375, 0.425, 0.5)`, not black —
`ray_color` in `src/main.rs` never consults the material. -/
theorem rayColor_scatter_claim_cex :
    hitList [cexSphere] cexRay 0.001 ⊤ = some cexHr ∧
    cexHr.mat = cexMat ∧
    Material.scatter cexMat cexRay cexHr cexRS = none ∧
    cexRS.sphereVec.length_squared < 1 ∧
    rayColor cexRay [cexSphere] 2 rngW = ⟨0.375, 0.425, 0.5⟩ ∧
    (⟨0.375, 0.425, 0.5⟩ : Color) ≠ (⟨0, 0, 0⟩ : Color) := by
  refine ⟨cex_hitList, rfl, cex_scatter, ?_, cex_raycolor, ?_⟩
  · unfold cexRS Vec3.length_squared
    norm_num
  · intro h
    have hx := congrArg Vec3.x h
    norm_num at hx

/-- C1 amended: `ray_color` ignores the hit material entirely: whenever the
scene hit in `[0.001, ∞)` exists and `depth > 0`, it returns `0.5` times
the color of the hard-coded diffuse bounce ray
`Ray(point, (point + normal + random_unit_vector) - point)` at `depth - 1`. -/
theorem rayColor_hit_diffuse (ray : Ray) (world : List Sphere) (depth : ℕ)
    (rng : ℕ → Vec3) (hr : HitRecord) (hdepth : 0 < depth)
    (h : hitList world ray 0.001 ⊤ = some hr) :
    rayColor ray world depth rng =
      (0.5 : ℝ) • rayColor ⟨hr.point, hr.point + hr.normal + rng 0 - hr.point⟩
        world (depth - 1) (fun n => rng (n + 1)) := by
  obtain ⟨d, rfl⟩ : ∃ d, depth = d + 1 :=
    ⟨depth - 1, (Nat.succ_pred_eq_of_pos hdepth).symm⟩
  simp only [rayColor, h, Nat.add_sub_cancel]

/-- C1 witness: the amended theorem applied to the concrete metal scene at
depth `2`. -/
theorem rayColor_hit_diffuse_witness :
    0 < 2 ∧ hitList [cexSphere] cexRay 0.001 ⊤ = some cexHr ∧
    rayColor cexRay [cexSphere] 2 rngW =
      (0.5 : ℝ) • rayColor ⟨cexHr.point, cexHr.point + cexHr.normal + rngW 0 - cexHr.point⟩
        [cexSphere] (2 - 1) (fun n => rngW (n + 1)) :=
  ⟨by norm_num, cex_hitList,
    rayColor_hit_diffuse cexRay [cexSphere] 2 rngW cexHr (by norm_num) cex_hitList⟩

theorem ray8_unit : ray8.direction.unit =
    ⟨1 / Real.sqrt 2, -(1 / Real.sqrt 2), 0⟩ := by
  unfold ray8 Vec3.unit Vec3.length Vec3.length_squared
  norm_num [Vec3.smul_mk, Vec3.mk.injEq]

theorem ray8_reflect :
    Vec3.reflect ⟨1 / Real.sqrt 2, -(1 / Real.sqrt 2), 0⟩ ⟨0, 1, 0⟩ =
      ⟨1 / Real.sqrt 2, 1 / Real.sqrt 2, 0⟩ := by
  unfold Vec3.reflect Vec3.dot
  rw [Vec3.smul_mk, Vec3.mk_sub_mk, Vec3.mk.injEq]
  refine ⟨by ring, by ring, by ring⟩

theorem scatter8 :
    Material.scatter (Material.Metal ⟨0.8, 0.8, 0.8⟩ 0) ray8 hr8 rs8 =
      some (Scatter.mk ⟨0.8, 0.8, 0.8⟩ (Ray.mk ⟨0, 0, 0⟩
        ⟨1 / Real.sqrt 2, 1 / Real.sqrt 2, 0⟩)) := by
  have hstep : Material.scatter (Material.Metal ⟨0.8, 0.8, 0.8⟩ 0) ray8 hr8 rs8 =
      (if ((ray8.direction.unit).reflect hr8.normal +
            (0 : ℝ) • rs8.sphereVec).dot hr8.normal ≤ 0 then none
       else some (Scatter.mk ⟨0.8, 0.8, 0.8⟩ (Ray.mk hr8.point
         ((ray8.direction.unit).reflect hr8.normal +
           (0 : ℝ) • rs8.sphereVec)))) := rfl
  have hn : hr8.normal = (⟨0, 1, 0⟩ : Vec3) := rfl
  have haddz : (⟨1 / Real.sqrt 2, 1 / Real.sqrt 2, 0⟩ : Vec3) +
      (0 : ℝ) • rs8.sphereVec = ⟨1 / Real.sqrt 2, 1 / Real.sqrt 2, 0⟩ := by
    unfold rs8
    norm_num [Vec3.smul_mk, Vec3.mk_add_mk]
  have hsqrt2 : 0 < Real.sqrt 2 := Real.sqrt_pos.mpr (by norm_num)
  have hcond : ¬ ((⟨1 / Real.sqrt 2, 1 / Real.sqrt 2, 0⟩ : Vec3).dot
      (⟨0, 1, 0⟩ : Vec3) ≤ 0) := by
    unfold Vec3.dot
    norm_num
  rw [hstep, ray8_unit, hn, ray8_reflect, haddz, if_neg hcond]
  rfl

/-- C8 counterexample: the Metal arm normalizes the incoming direction
before reflecting, so with `fuzz = 0`, incoming direction `(1,-1,0)` and
normal `(0,1,0)` the scattered direction is `(1/√2, 1/√2, 0)`, which is not
`(1,1,0)`. -/
theorem metal_reflect_cex :
    Material.scatter (Material.Metal ⟨0.8, 0.8, 0.8⟩ 0) ray8 hr8 rs8 =
      some (Scatter.mk ⟨0.8, 0.8, 0.8⟩ (Ray.mk ⟨0, 0, 0⟩
        ⟨1 / Real.sqrt 2, 1 / Real.sqrt 2, 0⟩)) ∧
    (⟨1 / Real.sqrt 2, 1 / Real.sqrt 2, 0⟩ : Vec3) ≠ (⟨1, 1, 0⟩ : Vec3) := by
  refine ⟨scatter8, ?_⟩
  intro h
  have hx := congrArg Vec3.x h
  have hne : Real.sqrt 2 ≠ 0 := ne_of_gt (Real.sqrt_pos.mpr (by norm_num))
  have h1 : 1 < Real.sqrt 2 := by
    rw [show (1 : ℝ) = Real.sqrt 1 from Real.sqrt_one.symm]
    exact Real.sqrt_lt_sqrt (by norm_num) (by norm_num)
  simp only [] at hx
  field_simp at hx
  rw [hx] at h1
  exact lt_irrefl _ h1

/-- C8 amended: a Metal with `fuzz = 0` scattering an incoming ray of
direction `(1,-1,0)` at a hit with normal `(0,1,0)` yields the scattered
direction `(1/√2, 1/√2, 0)` — the reflection of the *unit-normalized*
incoming direction — exactly; `(1,1,0)` would be the reflection of the raw
direction. -/
theorem metal_reflect_unit_dir (albedo : Color) (o p : Point3) (t : ℝ)
    (ff : Bool) (rs : RandSrc) :
    Material.scatter (Material.Metal albedo 0) (Ray.mk o ⟨1, -1, 0⟩)
      (HitRecord.mk p ⟨0, 1, 0⟩ t ff (Material.Metal albedo 0)) rs =
      some (Scatter.mk albedo
        (Ray.mk p ⟨1 / Real.sqrt 2, 1 / Real.sqrt 2, 0⟩)) := by
  have hu : (Ray.mk o ⟨1, -1, 0⟩).direction.unit =
      ⟨1 / Real.sqrt 2, -(1 / Real.sqrt 2), 0⟩ := by
    unfold Vec3.unit Vec3.length Vec3.length_squared
    norm_num [Vec3.smul_mk, Vec3.mk.injEq]
  have hstep : Material.scatter (Material.Metal albedo 0) (Ray.mk o ⟨1, -1, 0⟩)
      (HitRecord.mk p ⟨0, 1, 0⟩ t ff (Material.Metal albedo 0)) rs =
      (if (((Ray.mk o ⟨1, -1, 0⟩).direction.unit).reflect (⟨0, 1, 0⟩ : Vec3) +
            (0 : ℝ) • rs.sphereVec).dot (⟨0, 1, 0⟩ : Vec3) ≤ 0 then none
       else some (Scatter.mk albedo (Ray.mk p
         (((Ray.mk o ⟨1, -1, 0⟩).direction.unit).reflect (⟨0, 1, 0⟩ : Vec3) +
           (0 : ℝ) • rs.sphereVec)))) := rfl
  have haddz : (⟨1 / Real.sqrt 2, 1 / Real.sqrt 2, 0⟩ : Vec3) +
      (0 : ℝ) • rs.sphereVec = ⟨1 / Real.sqrt 2, 1 / Real.sqrt 2, 0⟩ := by
    apply Vec3.ext <;> simp
  have hcond : ¬ ((⟨1 / Real.sqrt 2, 1 / Real.sqrt 2, 0⟩ : Vec3).dot
      (⟨0, 1, 0⟩ : Vec3) ≤ 0) := by
    unfold Vec3.dot
    norm_num
  rw [hstep, hu, ray8_reflect, haddz, if_neg hcond]

theorem sphereHit_geomEq (s1 s2 : Sphere) (hc : s1.center = s2.center)
    (hrad : s1.radius = s2.radius) (ray : Ray) (t_min : ℝ) (t_max : WithTop ℝ) :
    optGeomEq (s1.hit ray t_min t_max) (s2.hit ray t_min t_max) := by
  obtain ⟨c1, r1, m1⟩ := s1
  obtain ⟨c2, r2, m2⟩ := s2
  replace hc : c1 = c2 := hc
  replace hrad : r1 = r2 := hrad
  subst hc
  subst hrad
  have ed : sphereDisc ⟨c1, r1, m1⟩ ray = sphereDisc ⟨c1, r1, m2⟩ ray := rfl
  have e0 : sphereRoot0 ⟨c1, r1, m1⟩ ray = sphereRoot0 ⟨c1, r1, m2⟩ ray := rfl
  have e1 : sphereRoot1 ⟨c1, r1, m1⟩ ray = sphereRoot1 ⟨c1, r1, m2⟩ ray := rfl
  unfold Sphere.hit
  rw [ed, e0, e1]
  split_ifs with h1 h2 h3
  · exact trivial
  · exact trivial
  · exact ⟨rfl, rfl, rfl, rfl⟩
  · exact ⟨rfl, rfl, rfl, rfl⟩

theorem hitListAux_geomEq (ray : Ray) (t_min : ℝ) :
    ∀ (l1 l2 : List Sphere), l1.map Sphere.center = l2.map Sphere.center →
      l1.map Sphere.radius = l2.map Sphere.radius →
      ∀ (b1 b2 : Option HitRecord), optGeomEq b1 b2 →
      ∀ (c : WithTop ℝ),
      optGeomEq (hitListAux ray t_min l1 b1 c) (hitListAux ray t_min l2 b2 c) := by
  intro l1
  induction l1 with
  | nil =>
    intro l2 hc hrad b1 b2 hb c
    cases l2 with
    | nil => exact hb
    | cons s2 rest2 => exact absurd hc (by simp)
  | cons s1 rest1 ih =>
    intro l2 hc hrad b1 b2 hb c
    cases l2 with
    | nil => exact absurd hc (by simp)
    | cons s2 rest2 =>
      simp only [List.map_cons, List.cons.injEq] at hc hrad
      have hhit := sphereHit_geomEq s1 s2 hc.1 hrad.1 ray t_min c
      show optGeomEq
        (match s1.hit ray t_min c with
          | some hr => hitListAux ray t_min rest1 (some hr) (hr.t : WithTop ℝ)
          | none => hitListAux ray t_min rest1 b1 c)
        (match s2.hit ray t_min c with
          | some hr => hitListAux ray t_min rest2 (some hr) (hr.t : WithTop ℝ)
          | none => hitListAux ray t_min rest2 b2 c)
      cases h1 : s1.hit ray t_min c with
      | none =>
        cases h2 : s2.hit ray t_min c with
        | none => exact ih rest2 hc.2 hrad.2 b1 b2 hb c
        | some hr2 => rw [h1, h2] at hhit; exact hhit.elim
      | some hr1 =>
        cases h2 : s2.hit ray t_min c with
        | none => rw [h1, h2] at hhit; exact hhit.elim
        | some hr2 =>
          rw [h1, h2] at hhit
          have ht : hr1.t = hr2.t := hhit.2.2.1
          show optGeomEq (hitListAux ray t_min rest1 (some hr1) (hr1.t : WithTop ℝ))
            (hitListAux ray t_min rest2 (some hr2) (hr2.t : WithTop ℝ))
          rw [ht]
          exact ih rest2 hc.2 hrad.2 (some hr1) (some hr2) hhit _

theorem hitList_geomEq (l1 l2 : List Sphere)
    (hc : l1.map Sphere.center = l2.map Sphere.center)
    (hrad : l1.map Sphere.radius = l2.map Sphere.radius)
    (ray : Ray) (t_min : ℝ) (t_max : WithTop ℝ) :
    optGeomEq (hitList l1 ray t_min t_max) (hitList l2 ray t_min t_max) :=
  hitListAux_geomEq ray t_min l1 l2 hc hrad none none trivial t_max

theorem rayColor_succ_some (ray : Ray) (world : List Sphere) (d : ℕ)
    (rng : ℕ → Vec3) (hr : HitRecord)
    (h : hitList world ray 0.001 ⊤ = some hr) :
    rayColor ray world (d + 1) rng =
      (0.5 : ℝ) • rayColor ⟨hr.point, hr.point + hr.normal + rng 0 - hr.point⟩
        world d (fun n => rng (n + 1)) := by
  simp only [rayColor, h]

theorem rayColor_succ_none (ray : Ray) (world : List Sphere) (d : ℕ)
    (rng : ℕ → Vec3) (h : hitList world ray 0.001 ⊤ = none) :
    rayColor ray world (d + 1) rng =
      (1 - 0.5 * (ray.direction.unit.y + 1)) • (⟨1, 1, 1⟩ : Color) +
        (0.5 * (ray.direction.unit.y + 1)) • (⟨0.5, 0.7, 1.0⟩ : Color) := by
  simp only [rayColor, h]

/-- C10: `ray_color` never depends on any material parameter: two scenes
whose spheres agree in centers and radii (but carry arbitrary materials)
give identical colors for every ray, depth and random stream. -/
theorem rayColor_material_independent (l1 l2 : List Sphere)
    (hc : l1.map Sphere.center = l2.map Sphere.center)
    (hrad : l1.map Sphere.radius = l2.map Sphere.radius) :
    ∀ (depth : ℕ) (ray : Ray) (rng : ℕ → Vec3),
      rayColor ray l1 depth rng = rayColor ray l2 depth rng := by
  intro depth
  induction depth with
  | zero => intro ray rng; rfl
  | succ d ih =>
    intro ray rng
    have hgeom := hitList_geomEq l1 l2 hc hrad ray 0.001 ⊤
    cases h1 : hitList l1 ray 0.001 ⊤ with
    | none =>
      cases h2 : hitList l2 ray 0.001 ⊤ with
      | none =>
        rw [rayColor_succ_none ray l1 d rng h1, rayColor_succ_none ray l2 d rng h2]
      | some hr2 => rw [h1, h2] at hgeom; exact hgeom.elim
    | some hr1 =>
      cases h2 : hitList l2 ray 0.001 ⊤ with
      | none => rw [h1, h2] at hgeom; exact hgeom.elim
      | some hr2 =>
        rw [h1, h2] at hgeom
        rw [rayColor_succ_some ray l1 d rng hr1 h1,
          rayColor_succ_some ray l2 d rng hr2 h2,
          hgeom.1, hgeom.2.1, ih]

/-- C10 witness: one-sphere scenes with identical geometry but a Lambertian
versus a Dielectric material give the same color at depth 3. -/
theorem rayColor_material_independent_witness :
    ([⟨⟨0, 0, -2⟩, 1, Material.Lambertian ⟨0.5, 0.5, 0.5⟩⟩] : List Sphere).map
        Sphere.center =
      ([⟨⟨0, 0, -2⟩, 1, Material.Dielectric 1.5⟩] : List Sphere).map
        Sphere.center ∧
    ([⟨⟨0, 0, -2⟩, 1, Material.Lambertian ⟨0.5, 0.5, 0.5⟩⟩] : List Sphere).map
        Sphere.radius =
      ([⟨⟨0, 0, -2⟩, 1, Material.Dielectric 1.5⟩] : List Sphere).map
        Sphere.radius ∧
    rayColor cexRay [⟨⟨0, 0, -2⟩, 1, Material.Lambertian ⟨0.5, 0.5, 0.5⟩⟩] 3 rngW =
      rayColor cexRay [⟨⟨0, 0, -2⟩, 1, Material.Dielectric 1.5⟩] 3 rngW :=
  ⟨rfl, rfl,
    rayColor_material_independent
      [⟨⟨0, 0, -2⟩, 1, Material.Lambertian ⟨0.5, 0.5, 0.5⟩⟩]
      [⟨⟨0, 0, -2⟩, 1, Material.Dielectric 1.5⟩]
      rfl rfl 3 cexRay rngW⟩

end Toytracer
